import Mathlib

/-!
Verification of the chart-generation core of the CSVanalyTenhou repository.

The development shallowly embeds the algorithmic content of
`rate变化图生成.py` (`plot_rate_changes` and its helpers) and
`相关系数热力图生成.py` (`generate_correlation_heatmap`,
`generate_advanced_correlation_heatmap`).  Numeric values are modelled by `ℚ`;
pandas Series become `List ℚ`; a matrix is a function `Nat → Nat → ℚ`;
pandas/matplotlib operations that can raise are modelled with `Option`.
-/

/-- `plot_df[rate_col].diff().fillna(0)`: the first delta is `0`, every later
delta is the value minus its predecessor. -/
def seriesDeltas (rates : List ℚ) : List ℚ :=
  match rates with
  | [] => []
  | r :: rs => 0 :: List.zipWith (fun a b => a - b) rs (r :: rs)

/-- pandas `Series.min()` (`none` on an empty series). -/
def seriesMin : List ℚ → Option ℚ
  | [] => none
  | a :: l =>
    match seriesMin l with
    | none => some a
    | some b => some (min a b)

/-- pandas `Series.max()` (`none` on an empty series). -/
def seriesMax : List ℚ → Option ℚ
  | [] => none
  | a :: l =>
    match seriesMax l with
    | none => some a
    | some b => some (max a b)

/-- Multiplicity of `v` in the list. -/
def countQ (l : List ℚ) (v : ℚ) : Nat :=
  match l with
  | [] => 0
  | a :: l => (if a = v then 1 else 0) + countQ l v

/-- Maximum of a list of naturals, `0` for the empty list. -/
def natListMax : List Nat → Nat
  | [] => 0
  | a :: l => max a (natListMax l)

/-- The largest multiplicity occurring in the list (`0` for the empty list). -/
def maxCount (l : List ℚ) : Nat :=
  natListMax (l.map (countQ l))

/-- `get_mode_pd` from `rate变化图生成.py`: `values.mode()` in pandas returns
every value of maximal multiplicity, in ascending order, and is empty only for
an empty series; the source takes `modes.iloc[0]`, i.e. the least value of
maximal multiplicity, and returns `None` only for an empty input. -/
def get_mode_pd (l : List ℚ) : Option ℚ :=
  if l.isEmpty then none
  else seriesMin (l.filter (fun v => countQ l v = maxCount l))

/-- pandas `Series.median()`: sort ascending; middle element for odd length,
average of the two middle elements for even length; `NaN` (here `none`) for an
empty series. -/
def medianPd (l : List ℚ) : Option ℚ :=
  if l.isEmpty then none
  else
    let s := List.insertionSort (· ≤ ·) l
    let n := l.length
    if n % 2 = 1 then s[n / 2]?
    else do
      let a ← s[n / 2 - 1]?
      let b ← s[n / 2]?
      pure ((a + b) / 2)

/-- Python's `x or y` where `x` is an optional numeric scalar: `None` and `0`
are falsy, any other number is truthy. -/
def pyOr (x y : Option ℚ) : Option ℚ :=
  match x with
  | some v => if v = 0 then y else some v
  | none => y

/-- `vmin = neg_mode if not negative_values.empty else plot_df['rate_change'].min()`
with `neg_mode = get_mode_pd(negative_values) or negative_values.median()` and
`negative_values = plot_df['rate_change'][plot_df['rate_change'] < 0]`. -/
def vmin (deltas : List ℚ) : Option ℚ :=
  let negative_values := deltas.filter (fun d => d < 0)
  if negative_values.isEmpty then seriesMin deltas
  else pyOr (get_mode_pd negative_values) (medianPd negative_values)

/-- `vmax = pos_mode if not positive_values.empty else plot_df['rate_change'].max()`
with `pos_mode = get_mode_pd(positive_values) or positive_values.median()` and
`positive_values = plot_df['rate_change'][plot_df['rate_change'] > 0]`. -/
def vmax (deltas : List ℚ) : Option ℚ :=
  let positive_values := deltas.filter (fun d => 0 < d)
  if positive_values.isEmpty then seriesMax deltas
  else pyOr (get_mode_pd positive_values) (medianPd positive_values)

/-- Round a rational to the nearest integer, ties to even (the rounding used
by Python's fixed-point float formatting). -/
def roundHalfEven (q : ℚ) : ℤ :=
  let f : ℤ := ⌊q⌋
  let r : ℚ := q - f
  if r < 1 / 2 then f
  else if 1 / 2 < r then f + 1
  else if f % 2 = 0 then f else f + 1

/-- Python's `f'{v:.1f}'`: sign, integer part, dot, one rounded decimal. -/
def fmt1f (q : ℚ) : String :=
  let sign := if q < 0 then "-" else ""
  let d := (roundHalfEven (|q| * 10)).toNat
  sign ++ toString (d / 10) ++ "." ++ toString (d % 10)

/-- The bar-label loop of `plot_rate_changes`: walk the bars in order keeping
the mutable `seen_values` set; skip indices off the stride, skip values already
seen, otherwise emit `(index, value)` and remember the raw value. -/
def barLabelsGo (interval : Nat) : Nat → List ℚ → List ℚ → List (Nat × ℚ)
  | _, [], _ => []
  | idx, v :: rest, seen =>
    if idx % interval ≠ 0 then barLabelsGo interval (idx + 1) rest seen
    else if v ∈ seen then barLabelsGo interval (idx + 1) rest seen
    else (idx, v) :: barLabelsGo interval (idx + 1) rest (v :: seen)

/-- The labels emitted for the `rate_change` bars:
`label_interval = max(1, len(plot_df) // max_bar_labels)`, then one pass over
the bars with the `seen_values` dedup. -/
def barLabels (deltas : List ℚ) (max_bar_labels : Nat) : List (Nat × ℚ) :=
  barLabelsGo (max 1 (deltas.length / max_bar_labels)) 0 deltas []

/-- First index whose value equals `v` (pandas `idxmax`/`idxmin` return the
first occurrence on ties). -/
def firstIdxOf (l : List ℚ) (v : ℚ) : Option Nat :=
  l.findIdx? (fun x => x = v)

/-- The extrema annotation block of `plot_rate_changes`: only runs when
`len(plot_df) > 1` and `rate_range > 0`; annotates the first maximum then the
first minimum. -/
def extremaCallouts (rates : List ℚ) : List (Nat × ℚ) :=
  if 1 < rates.length then
    match seriesMax rates, seriesMin rates with
    | some mx, some mn =>
      if 0 < mx - mn then
        match firstIdxOf rates mx, firstIdxOf rates mn with
        | some ja, some jb => [(ja, mx), (jb, mn)]
        | _, _ => []
      else []
    | _, _ => []
  else []

/-- `set_smart_ticks`: no ticks set for `n <= 1`; otherwise the indices
`np.linspace(0, n-1, min(n, 10), dtype=int)`, i.e. `i*(n-1)/(num_ticks-1)`
rounded down (the linspace values are non-negative, so the `int` cast
truncates to the floor, which on naturals is `Nat` division). -/
def set_smart_ticks (n : Nat) : Option (List Nat) :=
  if n ≤ 1 then none
  else
    let num_ticks := min n 10
    some ((List.range num_ticks).map (fun i => i * (n - 1) / (num_ticks - 1)))

/-- Lines 55-56 of `rate变化图生成.py`: the local rebinding of `first_rate`
(`first_rate = plot_df[rate_col].iloc[0] - plot_df['rate_change'].iloc[0]`
when the argument was `0` and the frame is non-empty).  The rebound local is
never read again. -/
def adjusted_first_rate (rates : List ℚ) (first_rate : ℚ) : ℚ :=
  if first_rate = 0 ∧ 0 < rates.length then
    rates.headI - (seriesDeltas rates).headI
  else first_rate

/-- Every quantity computed by `plot_rate_changes` that the rendered chart
depends on. -/
structure RenderQuantities where
  deltas : List ℚ
  vminVal : Option ℚ
  vmaxVal : Option ℚ
  labels : List (Nat × ℚ)
  callouts : List (Nat × ℚ)
  ticks : Option (List Nat)
  deriving DecidableEq

/-- `plot_rate_changes` (computational content): derive the delta column, the
color normalization bounds, the bar labels, the extrema callouts and the tick
indices.  `first_rate` is rebound locally (see `adjusted_first_rate`) but no
computed quantity reads it. -/
def plot_rate_changes (rates : List ℚ) (max_bar_labels : Nat)
    (first_rate : ℚ) : RenderQuantities :=
  let ds := seriesDeltas rates
  let _ := adjusted_first_rate rates first_rate
  { deltas := ds
    vminVal := vmin ds
    vmaxVal := vmax ds
    labels := barLabels ds max_bar_labels
    callouts := extremaCallouts rates
    ticks := set_smart_ticks rates.length }

/-- Single in-place update of one matrix cell (`corr_values[r, c] = v`). -/
def matUpdate (M : Nat → Nat → ℚ) (r c : Nat) (v : ℚ) : Nat → Nat → ℚ :=
  fun i j => if i = r ∧ j = c then v else M i j

/-- `for i in range(n): corr_values[i, i] = 1.0`. -/
def setDiagOnes (n : Nat) (M : Nat → Nat → ℚ) : Nat → Nat → ℚ :=
  (List.range n).foldl (fun A i => matUpdate A i i 1) M

/-- Inner loop of the symmetrization:
`for j in range(i+1, n): corr_values[j, i] = corr_values[i, j]`. -/
def symRow (n i : Nat) (A : Nat → Nat → ℚ) : Nat → Nat → ℚ :=
  (List.range' (i + 1) (n - (i + 1))).foldl
    (fun B j => matUpdate B j i (B i j)) A

/-- `for i in range(n): for j in range(i+1, n): corr_values[j, i] = corr_values[i, j]`. -/
def symmetrize (n : Nat) (M : Nat → Nat → ℚ) : Nat → Nat → ℚ :=
  (List.range n).foldl (fun A i => symRow n i A) M

/-- A correlation matrix as used by the heatmap module: the variable labels
(`data.columns`) plus the coefficient table. -/
structure CorrMatrix where
  labels : List String
  entry : Nat → Nat → ℚ

/-- The `except` branch of `generate_correlation_heatmap`: draw an `n × n`
table of uniform values, force the diagonal to `1.0`, copy the upper triangle
onto the lower, and label it with `data.columns`. -/
def fallbackCorr (cols : List String) (rand : Nat → Nat → ℚ) : CorrMatrix :=
  { labels := cols
    entry := symmetrize cols.length (setDiagOnes cols.length rand) }

/-- The correlation computation of `generate_correlation_heatmap`:
`data.corr(method=method)` may raise (modelled by its outcome `corrResult`,
`none` when it raises); on failure the synthesized random matrix is used
instead and no failure escapes. -/
def generate_correlation_heatmap (cols : List String) (rand : Nat → Nat → ℚ)
    (corrResult : Option CorrMatrix) : CorrMatrix :=
  match corrResult with
  | some corr => corr
  | none => fallbackCorr cols rand

/-- The closed set of correlation methods accepted by the heatmap module. -/
inductive CorrMethod
  | pearson
  | spearman
  | kendall

/-- `generate_advanced_correlation_heatmap`: one protected per-method heatmap
each (through `generate_correlation_heatmap`), then — when more than one
method was requested — a combined panel that recomputes
`filtered_data.corr(method=method)` for every method with no `try`/`except`,
so a raising computation there aborts the whole call (`none`). -/
def generate_advanced_correlation_heatmap (cols : List String)
    (rand : Nat → Nat → ℚ) (methods : List CorrMethod)
    (corrOf : CorrMethod → Option CorrMatrix) :
    Option (List CorrMatrix × Option (List CorrMatrix)) :=
  let perMethod := methods.map (fun m => generate_correlation_heatmap cols rand (corrOf m))
  if 1 < methods.length then
    match methods.mapM corrOf with
    | some combined => some (perMethod, some combined)
    | none => none
  else some (perMethod, none)

/-- `np.triu(np.ones_like(corr, dtype=bool))`: `True` on and above the
diagonal. -/
def triuOnes (i j : Nat) : Bool := decide (i ≤ j)

/-- The display mask of `generate_correlation_heatmap` (`True` = cell hidden):
`None` (nothing hidden) unless `mask_half`; otherwise the upper triangle
including the diagonal, with `np.fill_diagonal(mask, False)` applied when
`diagonal` is unset. -/
def heatmapMask (mask_half diagonal : Bool) : Nat → Nat → Bool :=
  if mask_half then
    if diagonal then triuOnes
    else fun i j => if i = j then false else triuOnes i j
  else fun _ _ => false

/-- A matplotlib figure: either the freshly created blank figure that pyplot
supplies when no figure exists, or a figure carrying rendered chart content. -/
inductive PyFigure
  | blank
  | chart (content : List ℚ)
  deriving DecidableEq

/-- `plt.gcf()`-style lookup: the current figure if one exists, otherwise a
newly created blank figure which becomes current. -/
def pyplotGcf : Option PyFigure → PyFigure × Option PyFigure
  | some f => (f, some f)
  | none => (PyFigure.blank, some PyFigure.blank)

/-- `plt.savefig(...)`: encodes the current figure (creating a blank one if
none is open) and returns the encoded bytes, modelled by the figure itself. -/
def pyplotSavefig (s : Option PyFigure) : PyFigure × Option PyFigure :=
  pyplotGcf s

/-- `plt.close()`: the current figure is discarded. -/
def pyplotClose (_ : Option PyFigure) : Option PyFigure := none

/-- The save sequence shared by `plot_rate_changes` and
`generate_correlation_heatmap`: save the open figure to the in-memory buffer,
`plt.close()`, then — if an output file was requested — `plt.savefig(output_file)`.
Returns the returned blob and the bytes written to the file (if any). -/
def renderSaveOutputs (fig : PyFigure) (hasOutputFile : Bool) :
    PyFigure × Option PyFigure :=
  let s0 : Option PyFigure := some fig
  let r1 := pyplotSavefig s0
  let s2 := pyplotClose r1.2
  if hasOutputFile then
    let r2 := pyplotSavefig s2
    (r1.1, some (r2.1))
  else
    (r1.1, none)

theorem seriesMin_mem {l : List ℚ} {m : ℚ} (h : seriesMin l = some m) : m ∈ l := by
  induction l generalizing m with
  | nil => simp [seriesMin] at h
  | cons a l ih =>
    rw [seriesMin] at h
    cases hl : seriesMin l with
    | none => rw [hl] at h; simp at h; simp [h]
    | some b =>
      rw [hl] at h
      simp at h
      rcases min_choice a b with hab | hab <;> rw [hab] at h
      · simp [h]
      · exact List.mem_cons_of_mem _ (h ▸ ih hl)

theorem seriesMax_mem {l : List ℚ} {m : ℚ} (h : seriesMax l = some m) : m ∈ l := by
  induction l generalizing m with
  | nil => simp [seriesMax] at h
  | cons a l ih =>
    rw [seriesMax] at h
    cases hl : seriesMax l with
    | none => rw [hl] at h; simp at h; simp [h]
    | some b =>
      rw [hl] at h
      simp at h
      rcases max_choice a b with hab | hab <;> rw [hab] at h
      · simp [h]
      · exact List.mem_cons_of_mem _ (h ▸ ih hl)

theorem seriesMin_isSome {l : List ℚ} (h : l ≠ []) : ∃ m, seriesMin l = some m := by
  cases l with
  | nil => exact absurd rfl h
  | cons a l =>
    rw [seriesMin]
    cases seriesMin l <;> simp

theorem seriesMax_isSome {l : List ℚ} (h : l ≠ []) : ∃ m, seriesMax l = some m := by
  cases l with
  | nil => exact absurd rfl h
  | cons a l =>
    rw [seriesMax]
    cases seriesMax l <;> simp

theorem natListMax_attained (f : ℚ → Nat) (l : List ℚ) (h : l ≠ []) :
    ∃ v ∈ l, f v = natListMax (l.map f) := by
  induction l with
  | nil => exact absurd rfl h
  | cons a l ih =>
    cases l with
    | nil => exact ⟨a, by simp, by simp [natListMax]⟩
    | cons b l =>
      obtain ⟨v, hv, hfv⟩ := ih (by simp)
      rw [List.map_cons, natListMax]
      rcases max_choice (f a) (natListMax ((b :: l).map f)) with hm | hm
      · exact ⟨a, by simp, hm.symm⟩
      · exact ⟨v, List.mem_cons_of_mem _ hv, by rw [hm, hfv]⟩

theorem get_mode_pd_mem {l : List ℚ} (h : l ≠ []) :
    ∃ m, get_mode_pd l = some m ∧ m ∈ l := by
  have hfilter : l.filter (fun v => countQ l v = maxCount l) ≠ [] := by
    obtain ⟨v, hv, hfv⟩ := natListMax_attained (countQ l) l h
    intro hnil
    have : v ∈ l.filter (fun v => countQ l v = maxCount l) := by
      rw [List.mem_filter]
      exact ⟨hv, by simpa [maxCount] using hfv⟩
    rw [hnil] at this
    exact absurd this (List.not_mem_nil v)
  obtain ⟨m, hm⟩ := seriesMin_isSome hfilter
  refine ⟨m, ?_, ?_⟩
  · rw [get_mode_pd, if_neg (by simpa [List.isEmpty_iff] using h)]
    exact hm
  · have := seriesMin_mem hm
    exact (List.mem_filter.mp this).1

theorem vmin_of_neg_nonempty (deltas : List ℚ)
    (h : deltas.filter (fun d => d < 0) ≠ []) :
    ∃ m, vmin deltas = some m ∧ m < 0 := by
  obtain ⟨m, hm, hmem⟩ := get_mode_pd_mem h
  have hneg : m < 0 := by
    have := List.mem_filter.mp hmem
    simpa using this.2
  refine ⟨m, ?_, hneg⟩
  rw [vmin]
  rw [if_neg (by simp only [List.isEmpty_iff]; exact h)]
  rw [hm, pyOr, if_neg (ne_of_lt hneg)]

theorem vmax_of_pos_nonempty (deltas : List ℚ)
    (h : deltas.filter (fun d => 0 < d) ≠ []) :
    ∃ m, vmax deltas = some m ∧ 0 < m := by
  obtain ⟨m, hm, hmem⟩ := get_mode_pd_mem h
  have hpos : 0 < m := by
    have := List.mem_filter.mp hmem
    simpa using this.2
  refine ⟨m, ?_, hpos⟩
  rw [vmax]
  rw [if_neg (by simp only [List.isEmpty_iff]; exact h)]
  rw [hm, pyOr, if_neg (ne_of_gt hpos)]

/-- C1: states that for a non-empty strictly-positive (resp. strictly-negative)
delta subset in which no value occurs more than once, the normalization
reference equals that subset's median.  The code disagrees: pandas
`Series.mode()` of an all-distinct series returns every value, so
`modes.iloc[0]` is the subset's minimum and the median branch is dead.  At
deltas `[0, 10, 20, 30]` the positive subset is `[10, 20, 30]` (no repeats):
the computed positive reference is `10`, while the subset's median is `20`. -/
theorem c1_no_repeat_reference_evaluation :
    vmax [0, 10, 20, 30] = some 10 ∧
    medianPd ([0, 10, 20, 30].filter (fun d => 0 < d)) = some 20 := by
  constructor
  · norm_num [vmax, pyOr, get_mode_pd, seriesMin, countQ, maxCount, natListMax]
  · norm_num [medianPd, List.insertionSort, List.orderedInsert]

/-- C2: whenever the delta sequence has both strictly-negative and
strictly-positive values, the normalization range satisfies
`negative_reference ≤ 0 ≤ positive_reference`; and whenever one sign is
entirely absent, the corresponding bound falls back to the global minimum
(negative bound) resp. global maximum (positive bound) of all deltas. -/
theorem c2_color_normalization_range (deltas : List ℚ) :
    (deltas.filter (fun d => d < 0) ≠ [] →
      deltas.filter (fun d => 0 < d) ≠ [] →
      ∃ a b, vmin deltas = some a ∧ vmax deltas = some b ∧ a ≤ 0 ∧ 0 ≤ b) ∧
    (deltas.filter (fun d => d < 0) = [] → vmin deltas = seriesMin deltas) ∧
    (deltas.filter (fun d => 0 < d) = [] → vmax deltas = seriesMax deltas) := by
  refine ⟨?_, ?_, ?_⟩
  · intro hn hp
    obtain ⟨a, ha, ha0⟩ := vmin_of_neg_nonempty deltas hn
    obtain ⟨b, hb, hb0⟩ := vmax_of_pos_nonempty deltas hp
    exact ⟨a, b, ha, hb, le_of_lt ha0, le_of_lt hb0⟩
  · intro h
    rw [vmin, if_pos (by simp only [List.isEmpty_iff]; exact h)]
  · intro h
    rw [vmax, if_pos (by simp only [List.isEmpty_iff]; exact h)]

/-- Witness for C2 at the spec's own scenario deltas `[0, 20, -40, 0]`. -/
theorem c2_color_normalization_range_witness :
    ∃ a b, vmin [0, 20, -40, 0] = some a ∧ vmax [0, 20, -40, 0] = some b ∧
      a ≤ 0 ∧ 0 ≤ b :=
  (c2_color_normalization_range [0, 20, -40, 0]).1 (by norm_num) (by norm_num)

theorem barLabelsGo_mem_bounds (interval : Nat) (rest : List ℚ) :
    ∀ (idx : Nat) (seen : List ℚ) (p : Nat × ℚ),
      p ∈ barLabelsGo interval idx rest seen →
      idx ≤ p.1 ∧ p.1 < idx + rest.length ∧ p.1 % interval = 0 := by
  induction rest with
  | nil => intro idx seen p hp; simp [barLabelsGo] at hp
  | cons v rest ih =>
    intro idx seen p hp
    rw [barLabelsGo] at hp
    by_cases hmod : idx % interval ≠ 0
    · rw [if_pos hmod] at hp
      obtain ⟨h1, h2, h3⟩ := ih (idx + 1) seen p hp
      exact ⟨le_of_lt (Nat.lt_of_succ_le h1), by simpa [Nat.add_right_comm] using h2, h3⟩
    · rw [if_neg hmod] at hp
      by_cases hseen : v ∈ seen
      · rw [if_pos hseen] at hp
        obtain ⟨h1, h2, h3⟩ := ih (idx + 1) seen p hp
        exact ⟨le_of_lt (Nat.lt_of_succ_le h1), by simpa [Nat.add_right_comm] using h2, h3⟩
      · rw [if_neg hseen] at hp
        rcases List.mem_cons.mp hp with hp | hp
        · subst hp
          exact ⟨le_refl _, by simp [Nat.lt_succ_iff, Nat.add_comm], by simpa using hmod⟩
        · obtain ⟨h1, h2, h3⟩ := ih (idx + 1) (v :: seen) p hp
          exact ⟨le_of_lt (Nat.lt_of_succ_le h1), by simpa [Nat.add_right_comm] using h2, h3⟩

theorem barLabelsGo_fst_sorted (interval : Nat) (rest : List ℚ) :
    ∀ (idx : Nat) (seen : List ℚ),
      ((barLabelsGo interval idx rest seen).map Prod.fst).Pairwise (· < ·) := by
  induction rest with
  | nil => intro idx seen; simp [barLabelsGo]
  | cons v rest ih =>
    intro idx seen
    rw [barLabelsGo]
    by_cases hmod : idx % interval ≠ 0
    · rw [if_pos hmod]; exact ih (idx + 1) seen
    · rw [if_neg hmod]
      by_cases hseen : v ∈ seen
      · rw [if_pos hseen]; exact ih (idx + 1) seen
      · rw [if_neg hseen]
        rw [List.map_cons]
        refine List.Pairwise.cons ?_ (ih (idx + 1) (v :: seen))
        intro j hj
        obtain ⟨q, hq, hqj⟩ := List.mem_map.mp hj
        obtain ⟨h1, _, _⟩ := barLabelsGo_mem_bounds interval rest (idx + 1) (v :: seen) q hq
        omega

theorem barLabelsGo_snd_fresh (interval : Nat) (rest : List ℚ) :
    ∀ (idx : Nat) (seen : List ℚ),
      ((barLabelsGo interval idx rest seen).map Prod.snd).Nodup ∧
      ∀ v ∈ (barLabelsGo interval idx rest seen).map Prod.snd, v ∉ seen := by
  induction rest with
  | nil => intro idx seen; simp [barLabelsGo]
  | cons v rest ih =>
    intro idx seen
    rw [barLabelsGo]
    by_cases hmod : idx % interval ≠ 0
    · rw [if_pos hmod]; exact ih (idx + 1) seen
    · rw [if_neg hmod]
      by_cases hseen : v ∈ seen
      · rw [if_pos hseen]; exact ih (idx + 1) seen
      · rw [if_neg hseen]
        obtain ⟨hnd, hfresh⟩ := ih (idx + 1) (v :: seen)
        rw [List.map_cons]
        constructor
        · refine List.Pairwise.cons ?_ hnd
          intro w hw hvw
          exact hfresh w hw (hvw ▸ List.mem_cons_self v seen)
        · intro w hw
          rcases List.mem_cons.mp hw with hw | hw
          · exact hw ▸ hseen
          · intro hwseen
            exact hfresh w hw (List.mem_cons_of_mem _ hwseen)

/-- The bar indices that pass the stride test of the labeling loop. -/
def candidateIndices (n K : Nat) : List Nat :=
  (List.range n).filter (fun i => i % max 1 (n / K) = 0)

/-- C4 counterexample: the stride `max(1, N // max_bar_labels)` does not cap
the label count at `max_bar_labels`: with `max_bar_labels = 2` and the 5
distinct deltas `[0, 1, 2, 3, 4]` the stride is `max(1, 5 // 2) = 2` and the
three bars at indices 0, 2, 4 all get labels — more than `max_bar_labels`.
(The same arithmetic gives 6 labels for the claim's `max_bar_labels = 5`,
`N = 23` scenario.) -/
theorem c4_label_cap_counterexample :
    (barLabels [0, 1, 2, 3, 4] 2).length = 3 := by
  norm_num [barLabels, barLabelsGo]

/-- C4 amended: labels are placed only at indices on the stride
`max(1, N // max_bar_labels)`, at most one per bar in strictly increasing
index order, so the label count is bounded by the number of stride-aligned
candidate indices — not by `max_bar_labels`: for `max_bar_labels = 5`,
`N = 23` the candidate indices are exactly `0, 4, 8, 12, 16, 20`, six of
them, and more than `max_bar_labels` labels can actually appear (see the
counterexample). -/
theorem c4_label_stride (deltas : List ℚ) (K : Nat) :
    (∀ p ∈ barLabels deltas K,
        p.1 % max 1 (deltas.length / K) = 0 ∧ p.1 < deltas.length) ∧
    ((barLabels deltas K).map Prod.fst).Pairwise (· < ·) ∧
    (barLabels deltas K).length ≤ (candidateIndices deltas.length K).length ∧
    candidateIndices 23 5 = [0, 4, 8, 12, 16, 20] := by
  have hbounds : ∀ p ∈ barLabels deltas K,
      p.1 % max 1 (deltas.length / K) = 0 ∧ p.1 < deltas.length := by
    intro p hp
    obtain ⟨h1, h2, h3⟩ := barLabelsGo_mem_bounds _ deltas 0 [] p hp
    exact ⟨h3, by simpa using h2⟩
  refine ⟨hbounds, barLabelsGo_fst_sorted _ _ 0 [], ?_, by decide⟩
  have hnd : ((barLabels deltas K).map Prod.fst).Nodup :=
    (barLabelsGo_fst_sorted _ _ 0 []).imp ne_of_lt
  have hsub : (barLabels deltas K).map Prod.fst ⊆ candidateIndices deltas.length K := by
    intro i hi
    obtain ⟨p, hp, hpi⟩ := List.mem_map.mp hi
    obtain ⟨hmod, hlt⟩ := hbounds p hp
    rw [candidateIndices, List.mem_filter]
    exact ⟨List.mem_range.mpr (hpi ▸ hlt), by simp [hpi ▸ hmod]⟩
  have := (List.subperm_of_subset hnd hsub).length_le
  simpa using this

/-- Witness for C4's amended statement at a concrete series. -/
theorem c4_label_stride_witness :
    (∀ p ∈ barLabels [0, 1, 2, 3, 4] 2,
        p.1 % max 1 (([0, 1, 2, 3, 4] : List ℚ).length / 2) = 0 ∧
        p.1 < ([0, 1, 2, 3, 4] : List ℚ).length) ∧
    ((barLabels [0, 1, 2, 3, 4] 2).map Prod.fst).Pairwise (· < ·) ∧
    (barLabels [0, 1, 2, 3, 4] 2).length
      ≤ (candidateIndices ([0, 1, 2, 3, 4] : List ℚ).length 2).length ∧
    candidateIndices 23 5 = [0, 4, 8, 12, 16, 20] :=
  c4_label_stride [0, 1, 2, 3, 4] 2

theorem fmt1f_one_centi : fmt1f (1 / 100) = "0.0" := by
  have habs : |(1 / 100 : ℚ)| * 10 = 1 / 10 := by
    rw [abs_of_pos (by norm_num)]; norm_num
  have hfl : ⌊(1 / 10 : ℚ)⌋ = 0 := by norm_num [Int.floor_eq_iff]
  simp only [fmt1f, habs, roundHalfEven, hfl]
  norm_num
  decide

theorem fmt1f_three_centi : fmt1f (3 / 100) = "0.0" := by
  have habs : |(3 / 100 : ℚ)| * 10 = 3 / 10 := by
    rw [abs_of_pos (by norm_num)]; norm_num
  have hfl : ⌊(3 / 10 : ℚ)⌋ = 0 := by norm_num [Int.floor_eq_iff]
  simp only [fmt1f, habs, roundHalfEven, hfl]
  norm_num
  decide

/-- C5 counterexample: the dedup is on raw values, not on displayed text, so
the deltas `0.01` and `0.03` (distinct raw values) are labeled on consecutive
bars and both display as `0.0`. -/
theorem c5_consecutive_display_counterexample :
    (barLabels [1 / 100, 3 / 100] 15).map (fun p => fmt1f p.2)
      = ["0.0", "0.0"] := by
  norm_num [barLabels, barLabelsGo, fmt1f_one_centi, fmt1f_three_centi]

/-- C5 amended: the labeling loop never emits the same raw delta value twice
anywhere in the chart (the `seen_values` dedup is global, not just for
consecutive labels); identical displayed text on consecutive labels is still
possible when distinct raw values format alike. -/
theorem c5_label_values_nodup (deltas : List ℚ) (K : Nat) :
    ((barLabels deltas K).map Prod.snd).Nodup :=
  (barLabelsGo_snd_fresh _ deltas 0 []).1

/-- Witness for C5's amended statement at a concrete series. -/
theorem c5_label_values_nodup_witness :
    ((barLabels [1 / 100, 3 / 100] 15).map Prod.snd).Nodup :=
  c5_label_values_nodup [1 / 100, 3 / 100] 15

/-- C6 counterexample: a series with a single point still receives one bar
label.  Its delta column is `[0]`, the stride is `1`, and the single zero bar
gets labeled — the claim promises zero annotations from the labeling step. -/
theorem c6_single_point_label_counterexample :
    barLabels (seriesDeltas [1500]) 15 = [(0, 0)] := by
  norm_num [barLabels, barLabelsGo, seriesDeltas]

theorem zipWith_sub_all_zero (c : ℚ) :
    ∀ (l₁ l₂ : List ℚ), (∀ a ∈ l₁, a = c) → (∀ a ∈ l₂, a = c) →
      ∀ x ∈ List.zipWith (fun a b => a - b) l₁ l₂, x = 0 := by
  intro l₁
  induction l₁ with
  | nil => intro l₂ _ _ x hx; simp at hx
  | cons a l ih =>
    intro l₂ h1 h2 x hx
    cases l₂ with
    | nil => simp at hx
    | cons b l₂ =>
      rw [List.zipWith_cons_cons] at hx
      rcases List.mem_cons.mp hx with hx | hx
      · rw [hx, h1 a (List.mem_cons_self _ _), h2 b (List.mem_cons_self _ _),
          sub_self]
      · exact ih l₂ (fun y hy => h1 y (List.mem_cons_of_mem _ hy))
          (fun y hy => h2 y (List.mem_cons_of_mem _ hy)) x hx

theorem barLabelsGo_all_seen (interval : Nat) (rest : List ℚ) :
    ∀ (idx : Nat) (seen : List ℚ), (∀ v ∈ rest, v ∈ seen) →
      barLabelsGo interval idx rest seen = [] := by
  induction rest with
  | nil => intro idx seen _; rw [barLabelsGo]
  | cons v rest ih =>
    intro idx seen h
    rw [barLabelsGo]
    by_cases hmod : idx % interval ≠ 0
    · rw [if_pos hmod]
      exact ih _ _ (fun w hw => h w (List.mem_cons_of_mem _ hw))
    · rw [if_neg hmod, if_pos (h v (List.mem_cons_self _ _))]
      exact ih _ _ (fun w hw => h w (List.mem_cons_of_mem _ hw))

theorem barLabels_constant_single (rates : List ℚ) (K : Nat)
    (hne : rates ≠ []) (h : ∀ x ∈ rates, ∀ y ∈ rates, x = y) :
    barLabels (seriesDeltas rates) K = [(0, 0)] := by
  cases rates with
  | nil => exact absurd rfl hne
  | cons r rs =>
    have hz : ∀ x ∈ List.zipWith (fun a b => a - b) rs (r :: rs), x = 0 :=
      zipWith_sub_all_zero r rs (r :: rs)
        (fun a ha => h a (List.mem_cons_of_mem _ ha) r (List.mem_cons_self _ _))
        (fun a ha => h a ha r (List.mem_cons_self _ _))
    show barLabels (seriesDeltas (r :: rs)) K = [(0, 0)]
    simp only [seriesDeltas]
    rw [barLabels, barLabelsGo]
    rw [if_neg (by simp), if_neg (List.not_mem_nil 0)]
    rw [barLabelsGo_all_seen _ _ 1 [0]
      (fun v hv => by rw [hz v hv]; exact List.mem_cons_self _ _)]

/-- C6 amended: the extrema annotator produces zero callouts for every series
of length ≤ 1 and for every constant series; the bar-labeling step emits zero
labels exactly for the empty series — every non-empty series of length ≤ 1 or
constant series gets exactly one label, the `0.0` label on its first
(zero-delta) bar. -/
theorem c6_short_or_constant_series (rates : List ℚ) (K : Nat)
    (h : rates.length ≤ 1 ∨ ∀ x ∈ rates, ∀ y ∈ rates, x = y) :
    extremaCallouts rates = [] ∧
    (rates = [] → barLabels (seriesDeltas rates) K = []) ∧
    (rates ≠ [] → barLabels (seriesDeltas rates) K = [(0, 0)]) := by
  refine ⟨?_, ?_, ?_⟩
  · rcases h with h | h
    · rw [extremaCallouts, if_neg (by omega)]
    · rw [extremaCallouts]
      by_cases hlen : 1 < rates.length
      · rw [if_pos hlen]
        have hne : rates ≠ [] := by
          intro hh
          rw [hh] at hlen
          simp at hlen
        obtain ⟨mx, hmx⟩ := seriesMax_isSome hne
        obtain ⟨mn, hmn⟩ := seriesMin_isSome hne
        have heq : mx = mn := h mx (seriesMax_mem hmx) mn (seriesMin_mem hmn)
        simp only [hmx, hmn]
        rw [if_neg (by rw [heq]; simp)]
      · rw [if_neg hlen]
  · intro hnil
    subst hnil
    simp [barLabels, barLabelsGo, seriesDeltas]
  · intro hne
    refine barLabels_constant_single rates K hne ?_
    rcases h with h | h
    · cases rates with
      | nil => exact absurd rfl hne
      | cons r rs =>
        cases rs with
        | nil => intro x hx y hy; simp at hx hy; rw [hx, hy]
        | cons s rs => simp at h
    · exact h

/-- Witness for C6's amended statement at a constant two-point series. -/
theorem c6_short_or_constant_series_witness :
    extremaCallouts [5, 5] = [] ∧
    (([5, 5] : List ℚ) = [] → barLabels (seriesDeltas [5, 5]) 15 = []) ∧
    (([5, 5] : List ℚ) ≠ [] → barLabels (seriesDeltas [5, 5]) 15 = [(0, 0)]) :=
  c6_short_or_constant_series [5, 5] 15
    (Or.inr (by
      intro x hx y hy
      simp only [List.mem_cons, List.not_mem_nil, or_false] at hx hy
      rcases hx with hx | hx <;> rcases hy with hy | hy <;> rw [hx, hy]))

theorem linspace_div_strictMono {n num i j : Nat} (hn : num ≤ n) (hnum : 2 ≤ num)
    (hij : i < j) : i * (n - 1) / (num - 1) < j * (n - 1) / (num - 1) := by
  have hpos : 0 < num - 1 := by omega
  have h2 : (i + 1) * (n - 1) ≤ j * (n - 1) :=
    Nat.mul_le_mul_right _ (Nat.succ_le_of_lt hij)
  have h3 : i * (n - 1) + (num - 1) ≤ j * (n - 1) := by
    rw [Nat.succ_mul] at h2
    omega
  have h4 := Nat.div_le_div_right (c := num - 1) h3
  rw [Nat.add_div_right _ hpos] at h4
  omega

/-- C7: for a series of length `n ≥ 2`, `set_smart_ticks` selects exactly
`min(n, 10)` pairwise-distinct indices (in strictly increasing order) obtained
by linear interpolation over `[0, n-1]`, the first being `0` and the last
`n - 1`; for `n ≤ 1` it sets no ticks. -/
theorem c7_tick_sampler (n : Nat) :
    (2 ≤ n → ∃ L, set_smart_ticks n = some L ∧ L.length = min n 10 ∧
        L.Pairwise (· < ·) ∧ L.head? = some 0 ∧ L.getLast? = some (n - 1)) ∧
    (n ≤ 1 → set_smart_ticks n = none) := by
  constructor
  · intro h
    rw [set_smart_ticks, if_neg (by omega)]
    have hnum : 2 ≤ min n 10 := by omega
    have hle : min n 10 ≤ n := min_le_left _ _
    refine ⟨_, rfl, by simp, ?_, ?_, ?_⟩
    · rw [List.pairwise_map]
      exact (List.pairwise_lt_range _).imp
        (fun hij => linspace_div_strictMono hle hnum hij)
    · obtain ⟨m, hm⟩ : ∃ m, min n 10 = m + 1 := ⟨min n 10 - 1, by omega⟩
      rw [hm, List.range_succ_eq_map]
      simp
    · have hlast : (List.range (min n 10)).getLast? = some (min n 10 - 1) := by
        obtain ⟨m, hm⟩ : ∃ m, min n 10 = m + 1 := ⟨min n 10 - 1, by omega⟩
        rw [hm, List.range_succ, List.getLast?_append]
        simp
      rw [List.getLast?_map, hlast]
      simp only [Option.map_some']
      rw [Nat.mul_div_cancel_left _ (by omega : 0 < min n 10 - 1)]
  · intro h
    rw [set_smart_ticks, if_pos h]

/-- Witness for C7 at a series of length 23. -/
theorem c7_tick_sampler_witness :
    ∃ L, set_smart_ticks 23 = some L ∧ L.length = min 23 10 ∧
      L.Pairwise (· < ·) ∧ L.head? = some 0 ∧ L.getLast? = some (23 - 1) :=
  (c7_tick_sampler 23).1 (by norm_num)

theorem setDiagOnes_apply (n : Nat) (M : Nat → Nat → ℚ) (i j : Nat) :
    setDiagOnes n M i j = if i = j ∧ i < n then 1 else M i j := by
  induction n with
  | zero => simp [setDiagOnes]
  | succ n ih =>
    rw [setDiagOnes, List.range_succ, List.foldl_append, List.foldl_cons,
      List.foldl_nil, ← setDiagOnes]
    simp only [matUpdate]
    rw [ih]
    split_ifs <;> first | rfl | omega

theorem symRowFold (i : Nat) (L : List Nat) :
    ∀ (A : Nat → Nat → ℚ), (∀ j ∈ L, i < j) → ∀ (r c : Nat),
      (L.foldl (fun B j => matUpdate B j i (B i j)) A) r c
        = if r ∈ L ∧ c = i then A i r else A r c := by
  induction L with
  | nil => intro A _ r c; simp
  | cons j L ih =>
    intro A hL r c
    rw [List.foldl_cons,
      ih (matUpdate A j i (A i j)) (fun x hx => hL x (List.mem_cons_of_mem _ hx))]
    have hij : i ≠ j := Nat.ne_of_lt (hL j (List.mem_cons_self _ _))
    simp only [matUpdate]
    by_cases h1 : r ∈ L ∧ c = i
    · rw [if_pos h1, if_neg (fun hc => hij hc.1),
        if_pos ⟨List.mem_cons_of_mem _ h1.1, h1.2⟩]
    · rw [if_neg h1]
      by_cases h2 : r = j ∧ c = i
      · rw [if_pos h2, if_pos ⟨h2.1 ▸ List.mem_cons_self _ _, h2.2⟩, h2.1]
      · rw [if_neg h2, if_neg ?_]
        intro hc
        rcases List.mem_cons.mp hc.1 with hr | hr
        · exact h2 ⟨hr, hc.2⟩
        · exact h1 ⟨hr, hc.2⟩

theorem symmetrizePartial (n : Nat) (M : Nat → Nat → ℚ) :
    ∀ (k r c : Nat),
      ((List.range k).foldl (fun A i => symRow n i A) M) r c
        = if c < r ∧ r < n ∧ c < k then M c r else M r c := by
  intro k
  induction k with
  | zero => intro r c; simp
  | succ k ih =>
    intro r c
    rw [List.range_succ, List.foldl_append, List.foldl_cons, List.foldl_nil]
    rw [symRow, symRowFold k _ _
      (fun j hj => by
        have := List.mem_range'_1.mp hj
        omega)]
    by_cases h1 : r ∈ List.range' (k + 1) (n - (k + 1)) ∧ c = k
    · obtain ⟨hr, hc⟩ := h1
      have hr' := List.mem_range'_1.mp hr
      rw [if_pos ⟨hr, hc⟩, ih]
      rw [if_neg (by omega)]
      rw [if_pos (by omega)]
      rw [hc]
    · rw [if_neg h1, ih]
      by_cases h2 : c < r ∧ r < n ∧ c < k
      · rw [if_pos h2, if_pos (by omega)]
      · rw [if_neg h2, if_neg ?_]
        intro h3
        obtain ⟨h3a, h3b, h3c⟩ := h3
        apply h1
        have hck : c = k := by
          by_contra hck
          exact h2 ⟨h3a, h3b, by omega⟩
        exact ⟨List.mem_range'_1.mpr (by omega), hck⟩

theorem symmetrize_apply (n : Nat) (M : Nat → Nat → ℚ) (r c : Nat) :
    symmetrize n M r c = if c < r ∧ r < n then M c r else M r c := by
  rw [symmetrize, symmetrizePartial]
  split_ifs <;> first | rfl | omega

theorem fallbackCorr_entry (cols : List String) (rand : Nat → Nat → ℚ)
    (i j : Nat) (hi : i < cols.length) (hj : j < cols.length) :
    (fallbackCorr cols rand).entry i j =
      if i = j then 1 else if i < j then rand i j else rand j i := by
  show symmetrize cols.length (setDiagOnes cols.length rand) i j = _
  rw [symmetrize_apply, setDiagOnes_apply, setDiagOnes_apply]
  split_ifs <;> first | rfl | omega

/-- C3 counterexample: the combined panel of
`generate_advanced_correlation_heatmap` recomputes the correlations with no
`try`/`except`, so when the underlying computation raises for an input table
the whole call propagates the failure to its caller instead of substituting
the synthetic matrix. -/
theorem c3_advanced_propagates_counterexample :
    generate_advanced_correlation_heatmap ["c1", "c2"] (fun _ _ => 0)
      [CorrMethod.pearson, CorrMethod.spearman] (fun _ => none) = none := rfl

/-- C3 amended: `generate_correlation_heatmap` itself never propagates a
correlation-computation failure: when the computation raises it returns the
synthetic matrix with the same variable labels, `1.0` on the diagonal,
off-diagonal entries taken from the uniform `[-1, 1]` draws, exactly
symmetric (upper triangle copied to the lower); the combined panel of
`generate_advanced_correlation_heatmap`, however, recomputes correlations
unprotected and does propagate the failure (see the counterexample). -/
theorem c3_fallback_structure (cols : List String) (rand : Nat → Nat → ℚ)
    (hrand : ∀ i j, -1 ≤ rand i j ∧ rand i j ≤ 1) :
    (generate_correlation_heatmap cols rand none).labels = cols ∧
    (∀ i, i < cols.length →
      (generate_correlation_heatmap cols rand none).entry i i = 1) ∧
    (∀ i j, i < cols.length → j < cols.length →
      (generate_correlation_heatmap cols rand none).entry i j
        = (generate_correlation_heatmap cols rand none).entry j i) ∧
    (∀ i j, i < cols.length → j < cols.length →
      -1 ≤ (generate_correlation_heatmap cols rand none).entry i j ∧
      (generate_correlation_heatmap cols rand none).entry i j ≤ 1) := by
  refine ⟨rfl, ?_, ?_, ?_⟩
  · intro i hi
    rw [show generate_correlation_heatmap cols rand none = fallbackCorr cols rand
      from rfl]
    rw [fallbackCorr_entry cols rand i i hi hi, if_pos rfl]
  · intro i j hi hj
    rw [show generate_correlation_heatmap cols rand none = fallbackCorr cols rand
      from rfl]
    rw [fallbackCorr_entry cols rand i j hi hj, fallbackCorr_entry cols rand j i hj hi]
    split_ifs <;> first | rfl | omega
  · intro i j hi hj
    rw [show generate_correlation_heatmap cols rand none = fallbackCorr cols rand
      from rfl]
    rw [fallbackCorr_entry cols rand i j hi hj]
    split_ifs with h1 h2
    · norm_num
    · exact hrand i j
    · exact hrand j i

/-- Witness for C3's amended statement with two columns and all-zero draws. -/
theorem c3_fallback_structure_witness :
    (generate_correlation_heatmap ["c1", "c2"] (fun _ _ => 0) none).labels
        = ["c1", "c2"] ∧
    (∀ i, i < (["c1", "c2"] : List String).length →
      (generate_correlation_heatmap ["c1", "c2"] (fun _ _ => 0) none).entry i i
        = 1) ∧
    (∀ i j, i < (["c1", "c2"] : List String).length →
        j < (["c1", "c2"] : List String).length →
      (generate_correlation_heatmap ["c1", "c2"] (fun _ _ => 0) none).entry i j
        = (generate_correlation_heatmap ["c1", "c2"] (fun _ _ => 0) none).entry j i) ∧
    (∀ i j, i < (["c1", "c2"] : List String).length →
        j < (["c1", "c2"] : List String).length →
      -1 ≤ (generate_correlation_heatmap ["c1", "c2"] (fun _ _ => 0) none).entry i j ∧
      (generate_correlation_heatmap ["c1", "c2"] (fun _ _ => 0) none).entry i j ≤ 1) :=
  c3_fallback_structure ["c1", "c2"] (fun _ _ => 0)
    (fun _ _ => by norm_num)

/-- C8: the claim says the diagonal is hidden iff the show-diagonal flag is
unset.  The code does the opposite: with `mask_half=True` the `np.triu` mask
already covers the diagonal, and `np.fill_diagonal(mask, False)` — which
unhides it — runs exactly when `diagonal` is `False`.  So cell `(0,0)` is
hidden when `diagonal=True` and shown when `diagonal=False`, contradicting the
parameter's documentation `diagonal: 是否显示对角线`.  (The strictly-upper
cells behave as claimed: `(0,1)` hidden, `(1,0)` shown.) -/
theorem c8_diagonal_flag_evaluation :
    heatmapMask true true 0 0 = true ∧
    heatmapMask true false 0 0 = false ∧
    heatmapMask true false 0 1 = true ∧
    heatmapMask true false 1 0 = false := by
  refine ⟨rfl, rfl, rfl, rfl⟩

/-- C9: the claim says the bytes persisted to the output file equal the
returned blob.  In both rendering modules the file write
`plt.savefig(output_file)` runs after `plt.close()`, so pyplot creates a fresh
blank figure and saves that, while the returned blob was encoded from the
actual chart before the close: the two differ for every non-blank chart. -/
theorem c9_file_differs_from_blob_evaluation :
    renderSaveOutputs (PyFigure.chart [1, 2]) true
      = (PyFigure.chart [1, 2], some PyFigure.blank) ∧
    PyFigure.chart [1, 2] ≠ PyFigure.blank :=
  ⟨rfl, fun h => PyFigure.noConfusion h⟩

/-- C10: the `first_rate` argument has no effect on any computed quantity of
the render — it is only rebound locally (`adjusted_first_rate`) and never read
afterwards, so two runs differing only in `first_rate` produce identical
deltas, normalization bounds, labels, callouts and ticks. -/
theorem c10_first_rate_has_no_effect (rates : List ℚ) (K : Nat)
    (fr₁ fr₂ : ℚ) :
    plot_rate_changes rates K fr₁ = plot_rate_changes rates K fr₂ := rfl
